import Mathlib

/-!
Verification development for the `Quantun.ipynb` notebook: a shallow embedding of
the notebook's Q# operations (`RandomBit`, `Random`, `RandomNBits`), its Python
glue (result-to-integer conversion, `Counter` aggregation), and spec-modelled
interfaces of the external qsharp runtime (`run`, `eval`, `estimate`) and the
Azure Quantum job client.
-/

namespace Quantun

/-- Measurement outcome labels, the embedding of `qsharp.Result`. -/
inductive Result where
  | Zero
  | One
  deriving DecidableEq

/-- Abstract single-qubit state: the computational basis states together with the
two states reachable from them by the Hadamard gate. This is enough to track the
states that occur in the notebook's circuits exactly. -/
inductive QState where
  | qzero
  | qone
  | qplus
  | qminus
  deriving DecidableEq

/-- The Hadamard gate `H` on the abstract state space. -/
def applyH : QState → QState
  | QState.qzero => QState.qplus
  | QState.qone => QState.qminus
  | QState.qplus => QState.qzero
  | QState.qminus => QState.qone

/-- The measurement `M`. On a basis state the outcome is determined and the state
is unchanged; on a Hadamard superposition the supplied random bit `b` decides the
outcome (One when `b`), and the qubit collapses to the measured basis state. -/
def measureQ (b : Bool) : QState → Result × QState
  | QState.qzero => (Result.Zero, QState.qzero)
  | QState.qone => (Result.One, QState.qone)
  | QState.qplus =>
      if b then (Result.One, QState.qone) else (Result.Zero, QState.qzero)
  | QState.qminus =>
      if b then (Result.One, QState.qone) else (Result.Zero, QState.qzero)

/-- The `Reset` operation: returns the qubit to the |0⟩ state. -/
def resetQ (_ : QState) : QState := QState.qzero

/-- The notebook's Q# operation `RandomBit`: allocate a qubit (|0⟩), apply `H`,
call `DumpMachine()` (diagnostic only, no state change), measure with `M`, emit a
`Message` (diagnostic only), `Reset` the qubit, and return the result. The random
bit `b` resolves the measurement. The returned pair is the measured result and
the qubit state at the end of the `use` scope, i.e. at release. -/
def RandomBit (b : Bool) : Result × QState :=
  let qubit := QState.qzero
  let qubit := applyH qubit
  let (result, qubit) := measureQ b qubit
  let qubit := resetQ qubit
  (result, qubit)

/-- The notebook's Q# operation `Random`: allocate a qubit, `H`, `M`, `Reset`,
return the result. Same circuit as `RandomBit` without the diagnostics. -/
def Random (b : Bool) : Result × QState :=
  let q := QState.qzero
  let q := applyH q
  let (result, q) := measureQ b q
  let q := resetQ q
  (result, q)

/-- The Q# range expression `a .. b` (step 1) as the list of its elements; it is
empty when `b < a`. -/
def qsharpRange (a b : Int) : List Int :=
  (List.range (b - a + 1).toNat).map (fun (i : Nat) => a + (i : Int))

/-- The notebook's Q# operation `RandomNBits`: `mutable results = []`, then
`for i in 0 .. N - 1` append the result of one `Random()` call. The `stream`
supplies the random bit consumed by the i-th call to `Random`. -/
def RandomNBits (N : Int) (stream : Nat → Bool) : List Result :=
  ((qsharpRange 0 (N - 1)).enum).foldl
    (fun results p => results ++ [(Random (stream p.1)).1]) []

/-- The Python cell following `qsharp.eval("RandomBit()")`:
`if r == qsharp.Result.One: i = 1 else: i = 0`. -/
def resultToInt (r : Result) : Nat :=
  if r = Result.One then 1 else 0

/-- The aggregation step `counts = Counter(results)`: the mapping from each
label to its number of occurrences in the input sequence. -/
def counter (l : List Result) : Result → Nat :=
  fun r => l.count r

/-- Modelled from the spec: `qsharp.run(expr, shots=N)`. The repeated-shot entry
point lives in the external qsharp package, not in this repository; per the spec
it evaluates the operation once per shot and collects the per-shot outcomes in
order. `op` is the single-shot semantics of the invoked operation and `stream`
the simulator randomness consumed by shot `i`. -/
def runShots (op : Bool → Result × QState) (shots : Nat) (stream : Nat → Bool) :
    List Result :=
  (List.range shots).map (fun i => (op (stream i)).1)

/-- Value stored in one field of a per-shot record. -/
inductive FieldValue where
  | result (r : Result)
  | events (es : List String)
  deriving DecidableEq

/-- Modelled from the spec: `qsharp.run(expr, shots=N, save_events=True)`. The
record format is produced inside the external qsharp package; per the spec each
per-shot record is a mapping with at least a "result" field and optional event
data, here an association list holding the shot's measurement outcome under
"result" and its saved diagnostic events under "events". -/
def runSaveEvents (op : Bool → Result × QState) (events : Bool → List String)
    (shots : Nat) (stream : Nat → Bool) : List (List (String × FieldValue)) :=
  (List.range shots).map (fun i =>
    [("result", FieldValue.result (op (stream i)).1),
     ("events", FieldValue.events (events (stream i)))])

/-- A fragment of quantum-language source text, as seen by the evaluator: an
operation definition, a call to a named operation, or malformed text. -/
inductive Fragment where
  | defOp (name : String)
  | callOp (name : String)
  | malformed
  deriving DecidableEq

/-- The error taxonomy of the evaluator named by the spec. -/
inductive EvalError where
  | compilationError
  | nameResolutionError
  deriving DecidableEq

/-- The runtime-internal state: the table of defined operation names. -/
structure RuntimeState where
  ops : List String
  deriving DecidableEq

/-- The operation names defined by a source text. -/
def definedNames (source : List Fragment) : List String :=
  source.filterMap (fun f =>
    match f with
    | Fragment.defOp n => some n
    | _ => none)

/-- Modelled from the spec: `qsharp.eval(source)`. The evaluator lives in the
external qsharp package; per the spec it compiles the whole source before
executing anything: malformed source fails with a CompilationError, a call to an
operation that is neither previously defined nor defined in this source fails
with a NameResolutionError, and in both cases the runtime's operation table is
returned unchanged; otherwise every definition in the source is registered. -/
def evalSource (source : List Fragment) (st : RuntimeState) :
    Except EvalError Unit × RuntimeState :=
  if source.any (fun f => f = Fragment.malformed) then
    (Except.error EvalError.compilationError, st)
  else if source.any (fun f =>
      match f with
      | Fragment.callOp n => !((st.ops ++ definedNames source).contains n)
      | _ => false) then
    (Except.error EvalError.nameResolutionError, st)
  else
    (Except.ok (), { ops := st.ops ++ definedNames source })

/-- A hardware-profile configuration as passed to the estimator in the notebook:
an error budget, a qubit-parameter set name, and an optional error-correction
scheme name. -/
structure EstimateConfig where
  errorBudget : ℚ
  qubitParams : String
  qecScheme : Option String
  deriving DecidableEq

/-- One entry of an estimation report: the configuration it was computed for
together with the estimator's numeric payload. -/
structure EstimateEntry where
  config : EstimateConfig
  cost : Nat
  deriving DecidableEq

/-- Modelled from the spec: `qsharp.estimate(expr, configs)`. The estimation
engine is external; per the spec it returns one report entry per supplied
hardware-profile configuration, each attributable to its configuration by
position. The physical estimate itself is abstracted as the supplied
`estimator` function. -/
def qsharpEstimate (estimator : String → EstimateConfig → Nat) (expr : String)
    (configs : List EstimateConfig) : List EstimateEntry :=
  configs.map (fun c => { config := c, cost := estimator expr c })

/-- The three hardware-profile configurations passed to `qsharp.estimate` in the
notebook. -/
def notebookConfigs : List EstimateConfig :=
  [{ errorBudget := 333 / 1000, qubitParams := "qubit_gate_ns_e3", qecScheme := none },
   { errorBudget := 333 / 1000, qubitParams := "qubit_gate_us_e4", qecScheme := none },
   { errorBudget := 333 / 1000, qubitParams := "qubit_maj_ns_e6",
     qecScheme := some ("floquet_code") }]

/-- The observable states of a submitted Azure Quantum job. -/
inductive JobState where
  | submitted
  | running
  | succeeded
  | failed
  | cancelled
  deriving DecidableEq

/-- Whether a job state is terminal. -/
def JobState.isTerminal : JobState → Bool
  | JobState.succeeded => true
  | JobState.failed => true
  | JobState.cancelled => true
  | _ => false

/-- The transitions of the spec's job state machine
`Submitted -> Running -> \x7bSucceeded, Failed, Cancelled\x7d`. -/
def jobStepAllowed : JobState → JobState → Bool
  | JobState.submitted, JobState.running => true
  | JobState.running, JobState.succeeded => true
  | JobState.running, JobState.failed => true
  | JobState.running, JobState.cancelled => true
  | _, _ => false

/-- The terminal outcome the remote service eventually assigns to a job. -/
inductive JobOutcome where
  | succeeded
  | failed
  | cancelled
  deriving DecidableEq

/-- The job state corresponding to a terminal outcome. -/
def JobOutcome.toState : JobOutcome → JobState
  | JobOutcome.succeeded => JobState.succeeded
  | JobOutcome.failed => JobState.failed
  | JobOutcome.cancelled => JobState.cancelled

/-- Modelled from the spec: the observable state over time of a job created by
`target.submit(operation, name, shots=100)`. The remote execution is external;
per the spec the job is Submitted when created, Running afterwards (here for
`runTicks + 1` ticks), and then stays in its terminal outcome. -/
def jobStateAt (runTicks : Nat) (o : JobOutcome) (t : Nat) : JobState :=
  if t = 0 then JobState.submitted
  else if t ≤ runTicks + 1 then JobState.running
  else o.toState

/-- One step of the blocking poll loop inside `job.get_results`: return the
observed state and time once a terminal state is seen, otherwise wait one tick
and poll again (bounded by the fuel). -/
def pollFrom (runTicks : Nat) (o : JobOutcome) : Nat → Nat → JobState × Nat
  | 0, t => (jobStateAt runTicks o t, t)
  | fuel + 1, t =>
      if (jobStateAt runTicks o t).isTerminal then (jobStateAt runTicks o t, t)
      else pollFrom runTicks o fuel (t + 1)

/-- Modelled from the spec: `job.get_results()` polls the job state from the
moment of submission and returns only once a terminal state is observed,
yielding that state and the time of return. -/
def getResults (runTicks : Nat) (o : JobOutcome) : JobState × Nat :=
  pollFrom runTicks o (runTicks + 3) 0

/-- Modelled from the spec: the simulator's pseudo-random generator, one step of
a linear congruential generator on 32-bit state. -/
def prngNext (s : Nat) : Nat := (1664525 * s + 1013904223) % 2 ^ 32

/-- The random bit extracted from a PRNG state. -/
def prngBit (s : Nat) : Bool := s % 2 = 1

/-- Modelled from the spec: a seeded repeated-shot run. Each shot consumes the
current PRNG state for its measurement and advances it; the final PRNG state is
returned together with the outcome sequence. -/
def runShotsSeeded (op : Bool → Result × QState) :
    Nat → Nat → List Result × Nat
  | 0, s => ([], s)
  | n + 1, s =>
      let r := (op (prngBit s)).1
      let rest := runShotsSeeded op n (prngNext s)
      (r :: rest.1, rest.2)

/-- A command issued to the simulator session: fix the pseudo-randomness seed,
or run an operation for a number of shots. -/
inductive SessionCmd where
  | setSeed (s : Nat)
  | runOp (shots : Nat)
  deriving DecidableEq

/-- Modelled from the spec: a simulator session executing a sequence of
commands while threading the PRNG state; the outcome sequence of each run
command is collected in order. -/
def execSession (op : Bool → Result × QState) :
    List SessionCmd → Nat → List (List Result)
  | [], _ => []
  | SessionCmd.setSeed s :: rest, _ => execSession op rest s
  | SessionCmd.runOp n :: rest, s =>
      (runShotsSeeded op n s).1 :: execSession op rest (runShotsSeeded op n s).2

/-- The PRNG state of a session after executing a sequence of commands. -/
def sessionStateAfter (op : Bool → Result × QState) :
    List SessionCmd → Nat → Nat
  | [], s => s
  | SessionCmd.setSeed s :: rest, _ => sessionStateAfter op rest s
  | SessionCmd.runOp n :: rest, s =>
      sessionStateAfter op rest (runShotsSeeded op n s).2

/-- Folding append-of-singleton over a list accumulates exactly the mapped list. -/
theorem foldl_append_map {α β : Type} (f : α → β) (l : List α) (init : List β) :
    l.foldl (fun acc p => acc ++ [f p]) init = init ++ l.map f := by
  induction l generalizing init with
  | nil => simp
  | cons a t ih => simp [List.foldl_cons, ih]

/-- The Q# range `a .. b` has `(b - a + 1).toNat` elements. -/
theorem qsharpRange_length (a b : Int) :
    (qsharpRange a b).length = (b - a + 1).toNat := by
  rw [qsharpRange, List.length_map, List.length_range]

/-- C10: The single-shot Python conversion yields 1 exactly on `Result.One` and
0 in every other case, so its value is always 0 or 1. -/
theorem resultToInt_one_iff (r : Result) :
    (resultToInt r = 1 ↔ r = Result.One) ∧
      (resultToInt r = 0 ∨ resultToInt r = 1) := by
  cases r <;> simp [resultToInt]

/-- C8: Both operations defined in the notebook, `RandomBit` and `Random`, leave
their allocated qubit in the |0⟩ state at the end of the allocation scope, for
every resolution of the measurement randomness. -/
theorem qubit_zero_at_release (b : Bool) :
    (RandomBit b).2 = QState.qzero ∧ (Random b).2 = QState.qzero := by
  cases b <;> exact ⟨rfl, rfl⟩

/-- C9: `RandomNBits N` terminates with a result array of length `max N 0`:
`N` iterations when `N ≥ 1`, and the empty array when `N ≤ 0`. -/
theorem RandomNBits_length (N : Int) (stream : Nat → Bool) :
    ((RandomNBits N stream).length : Int) = max N 0 := by
  unfold RandomNBits
  rw [foldl_append_map, List.nil_append, List.length_map, List.enum_length,
    qsharpRange_length]
  have hN : ((N : Int) - 1 - 0 + 1) = N := by ring
  rw [hN]
  exact Int.toNat_eq_max N

/-- C2: The aggregation step `Counter` is order-independent: counting any
permutation of an outcome sequence yields the same label-to-count mapping. -/
theorem counter_perm_invariant (l l2 : List Result) (h : l.Perm l2) :
    counter l = counter l2 := by
  funext r
  exact h.count_eq r

/-- Witness for `counter_perm_invariant` at a concrete permutation. -/
theorem counter_perm_invariant_witness :
    ([Result.One, Result.Zero].Perm [Result.Zero, Result.One]) ∧
      counter [Result.One, Result.Zero] = counter [Result.Zero, Result.One] :=
  ⟨by decide,
    counter_perm_invariant [Result.One, Result.Zero] [Result.Zero, Result.One]
      (by decide)⟩

/-- C1: For every shot count `N ≥ 1` the repeated-shot run of `RandomBit`
returns an outcome sequence of length exactly `N`, and every element of it is
one of the two labels `Zero` and `One`. -/
theorem runShots_length_and_labels (shots : Nat) (stream : Nat → Bool)
    (h : 1 ≤ shots) :
    (runShots RandomBit shots stream).length = shots ∧
      ∀ r ∈ runShots RandomBit shots stream,
        r = Result.Zero ∨ r = Result.One := by
  refine ⟨by simp [runShots], ?_⟩
  intro r _
  cases r
  · exact Or.inl rfl
  · exact Or.inr rfl

/-- Witness for `runShots_length_and_labels` at 3 shots. -/
theorem runShots_length_and_labels_witness :
    (runShots RandomBit 3 (fun _ => true)).length = 3 ∧
      ∀ r ∈ runShots RandomBit 3 (fun _ => true),
        r = Result.Zero ∨ r = Result.One :=
  runShots_length_and_labels 3 (fun _ => true) (by decide)

/-- C7: Every record returned by the repeated-shot run with event saving
enabled contains a "result" field, so the notebook's per-entry lookup is
defined for every entry. -/
theorem runSaveEvents_result_field (op : Bool → Result × QState)
    (events : Bool → List String) (shots : Nat) (stream : Nat → Bool)
    (entry : List (String × FieldValue))
    (h : entry ∈ runSaveEvents op events shots stream) :
    ∃ r, entry.lookup ("result") = some (FieldValue.result r) := by
  simp [runSaveEvents] at h
  obtain ⟨i, _, rfl⟩ := h
  exact ⟨(op (stream i)).1, rfl⟩

/-- Witness for `runSaveEvents_result_field` at a one-shot run of `RandomBit`. -/
theorem runSaveEvents_result_field_witness :
    ∃ r, List.lookup ("result")
        [("result", FieldValue.result Result.Zero),
         ("events", FieldValue.events ([] : List String))] =
      some (FieldValue.result r) :=
  runSaveEvents_result_field RandomBit (fun _ => []) 1 (fun _ => false)
    [("result", FieldValue.result Result.Zero),
     ("events", FieldValue.events ([] : List String))] (by decide)

/-- C5: Estimation over `K` hardware-profile configurations returns exactly `K`
entries, each attributable to its input configuration by position; in the
notebook instance `K = 3`. -/
theorem qsharpEstimate_entries (estimator : String → EstimateConfig → Nat)
    (expr : String) (configs : List EstimateConfig) :
    (qsharpEstimate estimator expr configs).length = configs.length ∧
      (qsharpEstimate estimator expr configs).map EstimateEntry.config = configs ∧
      (qsharpEstimate estimator expr notebookConfigs).length = 3 := by
  refine ⟨by simp [qsharpEstimate], ?_, by simp [qsharpEstimate, notebookConfigs]⟩
  have hc : (EstimateEntry.config ∘ fun c =>
      ({ config := c, cost := estimator expr c } : EstimateEntry)) = id := by
    funext c
    rfl
  simp [qsharpEstimate, List.map_map, hc]

/-- `evalSource` either fails atomically with one of the two errors, or
succeeds registering all definitions of the source. -/
theorem evalSource_spec (source : List Fragment) (st : RuntimeState) :
    evalSource source st = (Except.error EvalError.compilationError, st) ∨
      evalSource source st = (Except.error EvalError.nameResolutionError, st) ∨
      evalSource source st =
        (Except.ok (), { ops := st.ops ++ definedNames source }) := by
  unfold evalSource
  split
  · exact Or.inl rfl
  · split
    · exact Or.inr (Or.inl rfl)
    · exact Or.inr (Or.inr rfl)

/-- C4: Evaluating malformed source fails with a CompilationError, well-formed
source containing a call to an operation that is neither previously registered
nor defined in the source fails with a NameResolutionError, and every
evaluation failure (CompilationError or NameResolutionError) leaves the
runtime's table of defined operations unchanged. -/
theorem evalSource_error_atomic (source : List Fragment) (st : RuntimeState) :
    (Fragment.malformed ∈ source →
      evalSource source st = (Except.error EvalError.compilationError, st)) ∧
      (Fragment.malformed ∉ source →
        ∀ n, Fragment.callOp n ∈ source → n ∉ st.ops ++ definedNames source →
          evalSource source st =
            (Except.error EvalError.nameResolutionError, st)) ∧
      ∀ e, (evalSource source st).1 = Except.error e →
        (evalSource source st).2 = st ∧
          (e = EvalError.compilationError ∨ e = EvalError.nameResolutionError) := by
  refine ⟨?_, ?_, ?_⟩
  · intro hmem
    have hc : source.any (fun f => f = Fragment.malformed) = true := by
      simp only [List.any_eq_true, decide_eq_true_eq]
      exact ⟨Fragment.malformed, hmem, rfl⟩
    unfold evalSource
    rw [if_pos hc]
  · intro hnm n hcall hnotin
    have h1 : ¬(source.any (fun f => f = Fragment.malformed) = true) := by
      simp only [List.any_eq_true, decide_eq_true_eq]
      rintro ⟨x, hx, rfl⟩
      exact hnm hx
    have h2 : source.any (fun f =>
        match f with
        | Fragment.callOp m => !((st.ops ++ definedNames source).contains m)
        | _ => false) = true := by
      simp only [List.any_eq_true]
      refine ⟨Fragment.callOp n, hcall, ?_⟩
      simp [hnotin]
    unfold evalSource
    rw [if_neg h1, if_pos h2]
  · intro e he
    rcases evalSource_spec source st with h | h | h
    · rw [h] at he ⊢
      cases e
      · exact ⟨rfl, Or.inl rfl⟩
      · simp at he
    · rw [h] at he ⊢
      cases e
      · simp at he
      · exact ⟨rfl, Or.inr rfl⟩
    · rw [h] at he
      simp at he

/-- Witness for `evalSource_error_atomic`: malformed source is rejected with a
CompilationError, a call to an undefined operation is rejected with a
NameResolutionError, and in both cases the operation table is untouched. -/
theorem evalSource_error_atomic_witness :
    (evalSource [Fragment.defOp ("RandomBit"), Fragment.malformed]
        { ops := ["Old"] } =
      (Except.error EvalError.compilationError, { ops := ["Old"] })) ∧
      evalSource [Fragment.callOp ("Main")] { ops := ["Old"] } =
        (Except.error EvalError.nameResolutionError, { ops := ["Old"] }) :=
  ⟨(evalSource_error_atomic [Fragment.defOp ("RandomBit"), Fragment.malformed]
      { ops := ["Old"] }).1 (by decide),
    (evalSource_error_atomic [Fragment.callOp ("Main")] { ops := ["Old"] }).2.1
      (by decide) ("Main") (by decide) (by decide)⟩

/-- The job state observed at a time is terminal exactly from time
`runTicks + 2` on. -/
theorem jobStateAt_terminal_iff (runTicks : Nat) (o : JobOutcome) (t : Nat) :
    (jobStateAt runTicks o t).isTerminal = true ↔ runTicks + 2 ≤ t := by
  unfold jobStateAt
  by_cases h0 : t = 0
  · simp [h0, JobState.isTerminal]
  · by_cases h1 : t ≤ runTicks + 1
    · simp [h0, h1, JobState.isTerminal]
      omega
    · cases o <;> simp [h0, h1, JobState.isTerminal, JobOutcome.toState] <;> omega

/-- The bounded poll returns the terminal outcome at time `runTicks + 2`
whenever it starts no later than that time with enough fuel to reach it. -/
theorem pollFrom_eq (runTicks : Nat) (o : JobOutcome) (fuel t : Nat)
    (hle : t ≤ runTicks + 2) (hfuel : runTicks + 2 ≤ t + fuel) :
    pollFrom runTicks o fuel t = (o.toState, runTicks + 2) := by
  induction fuel generalizing t with
  | zero =>
    have ht : t = runTicks + 2 := by omega
    subst ht
    have hterm : (jobStateAt runTicks o (runTicks + 2)).isTerminal = true :=
      (jobStateAt_terminal_iff runTicks o (runTicks + 2)).mpr (by omega)
    have hstate : jobStateAt runTicks o (runTicks + 2) = o.toState := by
      unfold jobStateAt
      have : ¬(runTicks + 2 = 0) := by omega
      have h2 : ¬(runTicks + 2 ≤ runTicks + 1) := by omega
      simp [this, h2]
    simp [pollFrom, hstate]
  | succ n ih =>
    by_cases hterm : (jobStateAt runTicks o t).isTerminal = true
    · have ht : t = runTicks + 2 := by
        have := (jobStateAt_terminal_iff runTicks o t).mp hterm
        omega
      subst ht
      have hstate : jobStateAt runTicks o (runTicks + 2) = o.toState := by
        unfold jobStateAt
        have hz : ¬(runTicks + 2 = 0) := by omega
        have h2 : ¬(runTicks + 2 ≤ runTicks + 1) := by omega
        simp [hz, h2]
      simp only [pollFrom]
      rw [if_pos hterm, hstate]
    · have hlt : t < runTicks + 2 := by
        rcases Nat.lt_or_ge t (runTicks + 2) with hl | hg
        · exact hl
        · exact absurd ((jobStateAt_terminal_iff runTicks o t).mpr hg) hterm
      simp only [pollFrom]
      rw [if_neg hterm]
      exact ih (t + 1) (by omega) (by omega)

/-- C3: `get_results` on a submitted job returns only once a terminal state is
reached, that state is one of Succeeded, Failed or Cancelled, no earlier
observation is terminal, and consecutive observed states follow the machine
Submitted -> Running -> \x7bSucceeded, Failed, Cancelled\x7d. -/
theorem job_terminal_and_machine (runTicks : Nat) (o : JobOutcome) :
    ((getResults runTicks o).1 = JobState.succeeded ∨
      (getResults runTicks o).1 = JobState.failed ∨
      (getResults runTicks o).1 = JobState.cancelled) ∧
      (jobStateAt runTicks o (getResults runTicks o).2).isTerminal = true ∧
      (∀ t, t < (getResults runTicks o).2 →
        (jobStateAt runTicks o t).isTerminal = false) ∧
      ∀ t, jobStateAt runTicks o t = jobStateAt runTicks o (t + 1) ∨
        jobStepAllowed (jobStateAt runTicks o t)
          (jobStateAt runTicks o (t + 1)) = true := by
  have hget : getResults runTicks o = (o.toState, runTicks + 2) :=
    pollFrom_eq runTicks o (runTicks + 3) 0 (by omega) (by omega)
  refine ⟨?_, ?_, ?_, ?_⟩
  · rw [hget]
    cases o
    · exact Or.inl rfl
    · exact Or.inr (Or.inl rfl)
    · exact Or.inr (Or.inr rfl)
  · rw [hget]
    exact (jobStateAt_terminal_iff runTicks o (runTicks + 2)).mpr (by omega)
  · intro t ht
    rw [hget] at ht
    have : ¬(runTicks + 2 ≤ t) := by omega
    rcases Bool.eq_false_or_eq_true (jobStateAt runTicks o t).isTerminal with h | h
    · exact absurd ((jobStateAt_terminal_iff runTicks o t).mp h) this
    · exact h
  · intro t
    by_cases h0 : t = 0
    · subst h0
      right
      have h1 : jobStateAt runTicks o 0 = JobState.submitted := by
        simp [jobStateAt]
      have h2 : jobStateAt runTicks o 1 = JobState.running := by
        simp [jobStateAt]
      rw [h1, h2]
      rfl
    · by_cases hrun : t + 1 ≤ runTicks + 1
      · left
        have ha : jobStateAt runTicks o t = JobState.running := by
          unfold jobStateAt
          have hz : ¬(t = 0) := h0
          have hl : t ≤ runTicks + 1 := by omega
          simp [hz, hl]
        have hb : jobStateAt runTicks o (t + 1) = JobState.running := by
          unfold jobStateAt
          have hz : ¬(t + 1 = 0) := by omega
          simp [hz, hrun]
        rw [ha, hb]
      · by_cases hend : t ≤ runTicks + 1
        · right
          have ha : jobStateAt runTicks o t = JobState.running := by
            unfold jobStateAt
            have hz : ¬(t = 0) := h0
            simp [hz, hend]
          have hb : jobStateAt runTicks o (t + 1) = o.toState := by
            unfold jobStateAt
            have hz : ¬(t + 1 = 0) := by omega
            simp [hz, hrun]
          rw [ha, hb]
          cases o <;> rfl
        · left
          have ha : jobStateAt runTicks o t = o.toState := by
            unfold jobStateAt
            have hz : ¬(t = 0) := h0
            simp [hz, hend]
          have hb : jobStateAt runTicks o (t + 1) = o.toState := by
            unfold jobStateAt
            have hz : ¬(t + 1 = 0) := by omega
            simp [hz, hrun]
          rw [ha, hb]

/-- Witness for `job_terminal_and_machine` at a concrete job run: before the
return time of `get_results` the observed state is not terminal. -/
theorem job_terminal_and_machine_witness :
    (jobStateAt 0 JobOutcome.succeeded 1).isTerminal = false :=
  (job_terminal_and_machine 0 JobOutcome.succeeded).2.2.1 1 (by decide)

/-- Executing an appended command list runs the first part and then the second
part from the state the first part leaves behind. -/
theorem execSession_append (op : Bool → Result × QState)
    (l1 l2 : List SessionCmd) (s : Nat) :
    execSession op (l1 ++ l2) s =
      execSession op l1 s ++ execSession op l2 (sessionStateAfter op l1 s) := by
  induction l1 generalizing s with
  | nil => simp [execSession, sessionStateAfter]
  | cons c rest ih => cases c <;> simp [execSession, sessionStateAfter, ih]

/-- C6: The simulator seed makes runs reproducible: in any two sessions, a run
of the same operation with the same shot count performed right after setting
the same seed produces the identical outcome sequence, regardless of the
sessions' histories and prior PRNG states. -/
theorem seeded_run_deterministic (op : Bool → Result × QState)
    (shots seed : Nat) (pre1 pre2 : List SessionCmd) (s1 s2 : Nat) :
    (execSession op
        (pre1 ++ [SessionCmd.setSeed seed, SessionCmd.runOp shots]) s1).getLast? =
      (execSession op
        (pre2 ++ [SessionCmd.setSeed seed, SessionCmd.runOp shots]) s2).getLast? := by
  rw [execSession_append, execSession_append]
  have hrun : ∀ s : Nat,
      execSession op [SessionCmd.setSeed seed, SessionCmd.runOp shots] s =
        [(runShotsSeeded op shots seed).1] := by
    intro s
    simp [execSession]
  rw [hrun, hrun, List.getLast?_concat, List.getLast?_concat]

end Quantun
